import Mathlib

/-!
Verification development for the web-scraper pipeline in
`tools/web_scraper.py`.

The Python module has two pure cores that we embed shallowly:

* the HTML-to-text extraction (`_parse_html_impl`, `process_element`,
  `should_skip_element`, `noise_patterns`, `parse_html`), which operates on
  the element tree produced by the external `html5lib` parser.  We embed the
  element tree as the inductive type `Elem` (tag, attributes, direct text,
  tail text, children — exactly the fields the Python code reads), and the
  external parser as a function `String → Except String Elem` passed as a
  parameter: `Except.error` models an exception escaping `html5lib.parse`
  (or the traversal), which is what the `try`/`except` in
  `_parse_html_impl` catches.

* the batch pipeline (`process_urls`), whose network effects we embed as
  explicit data: a fetch oracle `Nat → String → Option String` giving the
  outcome of `fetch_page` per (context index, url) — `none` is the value
  `fetch_page` returns after catching a navigation/network error — plus an
  event-trace interpreter for the resource lifecycle (context creation,
  fetch dispatch, teardown) and a completion-schedule parameter for
  `asyncio.gather`, so that claims about completion order and teardown can
  be stated.

Python's `str.strip()` is embedded as `pyStrip` (drop leading and trailing
whitespace); `hash(text)`-keyed set membership is embedded as string-keyed
set membership, i.e. the string hash is modelled as injective.
-/

/-- Element of the tree returned by `html5lib.parse` (ElementTree shape):
tag name, attribute list, direct text (`.text`), tail text (`.tail`, the
text following the element's closing tag inside its parent), children. -/
inductive Elem where
  | mk (tag : String) (attrs : List (String × String)) (text : Option String)
      (tail : Option String) (children : List Elem)
deriving Repr

/-- Tag name of an element (`element.tag`). -/
def Elem.tag : Elem → String
  | .mk t _ _ _ _ => t

/-- Attribute list of an element (`element.attrib`). -/
def Elem.attrs : Elem → List (String × String)
  | .mk _ a _ _ _ => a

/-- Direct text of an element (`element.text`; `none` models Python `None`). -/
def Elem.text : Elem → Option String
  | .mk _ _ x _ _ => x

/-- Tail text of an element (`element.tail`). -/
def Elem.tail : Elem → Option String
  | .mk _ _ _ t _ => t

/-- Children of an element (`list(element)`). -/
def Elem.children : Elem → List Elem
  | .mk _ _ _ _ cs => cs

/-- Drop trailing whitespace characters from a character list. -/
def dropTrail : List Char → List Char
  | [] => []
  | c :: rest =>
    let r := dropTrail rest
    if r = [] ∧ c.isWhitespace then [] else c :: r

/-- Model of Python `str.strip()` on character lists: drop leading and
trailing whitespace. -/
def pyStripL (l : List Char) : List Char :=
  dropTrail (l.dropWhile Char.isWhitespace)

/-- Model of Python `str.strip()`. -/
def pyStrip (s : String) : String :=
  String.mk (pyStripL s.data)

/-- Model of Python `str.lower()`: lowercase character by character. -/
def pyLower (s : String) : String :=
  String.mk (s.data.map Char.toLower)

/-- Python truthiness of an optional string: `None` and the empty string are
falsy, every other string is truthy. -/
def truthy : Option String → Bool
  | none => false
  | some s => !(s == (""))

/-- Indentation string `"  " * indentation` used by `process_element`
(the Python `indent_cache` is a memoisation of exactly this value). -/
def indentStr : Nat → String
  | 0 => ""
  | d + 1 => ("  ") ++ indentStr d

/-- Shared text-emission step of `process_element` (lines 114-120 for
`element.text`, lines 130-136 for `child.tail`): if the raw text is truthy
and its stripped form is non-empty and unseen, record it as seen and emit
one line `indent ++ stripped`; otherwise emit nothing.  The Python set of
hashes `seen_texts` is the string list `seen` (hash modelled as
injective). -/
def emitText (seen : List String) (indent : String) (raw : Option String) :
    List String × List String :=
  match raw with
  | none => (seen, [])
  | some s =>
    if s ≠ ("") ∧ pyStrip s ≠ ("") then
      if pyStrip s ∈ seen then (seen, [])
      else (pyStrip s :: seen, [indent ++ pyStrip s])
    else (seen, [])

/-- Embedding of `should_skip_element` (lines 90-102): skip script/style
elements, elements with no text and no children, and elements whose text is
whitespace-only with no children. -/
def should_skip_element (e : Elem) : Bool :=
  if e.tag == ("script") || e.tag == ("style") then true
  else if !(truthy e.text) && e.children.isEmpty then true
  else if truthy e.text && (pyStrip (e.text.getD ("")) == ("")) && e.children.isEmpty
    then true
  else false

mutual

/-- Embedding of `process_element` (lines 105-138).  The mutable
`seen_texts` set and the growing `result` list are made explicit: the
function returns the updated seen set and the lines it emitted, in order.
The element's own text is emitted at the current indentation; children are
processed at `indentation + 1`; each child's tail text is emitted at the
parent's indentation (whether or not the child itself was skipped). -/
def process_element (seen : List String) (e : Elem) (indentation : Nat) :
    List String × List String :=
  match e with
  | .mk _ _ text _ cs =>
    let p1 := emitText seen (indentStr indentation) text
    let p2 := processChildren p1.1 indentation cs
    (p2.1, p1.2 ++ p2.2)

/-- The `for child in element` loop of `process_element` (lines 123-136):
recurse into each non-skipped child at depth + 1, then handle the child's
tail text at the parent's indentation. -/
def processChildren (seen : List String) (indentation : Nat) (cs : List Elem) :
    List String × List String :=
  match cs with
  | [] => (seen, [])
  | c :: rest =>
    let pc := if should_skip_element c then (seen, ([] : List String))
              else process_element seen c (indentation + 1)
    let pt := emitText pc.1 (indentStr indentation) c.tail
    let pr := processChildren pt.1 indentation rest
    (pr.1, pc.2 ++ pt.2 ++ pr.2)

end

mutual

/-- Proper descendants of an element in document (pre-)order; this is the
iteration order of ElementTree `find(".//tag")` / `findall(".//tag")`. -/
def descendantsE (e : Elem) : List Elem :=
  match e with
  | .mk _ _ _ _ cs => descendantsL cs

/-- Document-order listing of a list of subtrees: each element followed by
its own descendants. -/
def descendantsL (cs : List Elem) : List Elem :=
  match cs with
  | [] => []
  | c :: rest => c :: (descendantsE c ++ descendantsL rest)

end

/-- Embedding of `parsed_html.findall(f".//{tag}")`: all proper descendants
with the given tag, in document order. -/
def findallTag (root : Elem) (tag : String) : List Elem :=
  (descendantsE root).filter (fun e => e.tag == tag)

/-- Embedding of `parsed_html.find(f".//{tag}")`: first descendant with the
given tag, if any. -/
def findTag (root : Elem) (tag : String) : Option Elem :=
  (findallTag root tag).head?

/-- Embedding of ElementTree `element.get(key)`: value of the first
attribute with the given name, if any. -/
def attrGet (e : Elem) (k : String) : Option String :=
  (e.attrs.find? (fun kv => kv.1 == k)).map (fun kv => kv.2)

/-- Title metadata step (lines 142-144): if `find(".//title")` succeeds and
its text is truthy, one line `Title: <stripped text>`; otherwise nothing. -/
def titleLines (root : Elem) : List String :=
  match findTag root ("title") with
  | some el =>
    if truthy el.text then [("Title: ") ++ pyStrip (el.text.getD (""))] else []
  | none => []

/-- Meta-description loop (lines 147-150): first `<meta>` whose `name`
attribute lowercases to `description` and whose `content` is truthy yields
one `Description:` line, then the loop breaks. -/
def descLoop : List Elem → List String
  | [] => []
  | m :: rest =>
    if pyLower ((attrGet m ("name")).getD ("")) == ("description")
        && truthy (attrGet m ("content")) then
      [("Description: ") ++ pyStrip ((attrGet m ("content")).getD (""))]
    else descLoop rest

/-- Metadata lines of `_parse_html_impl` (lines 140-153): optional title,
optional description, then always `URL: <url>`. -/
def metadataLines (root : Elem) (url : String) : List String :=
  titleLines root ++ descLoop (findallTag root ("meta")) ++ [("URL: ") ++ url]

/-- The compiled `noise_patterns` list (lines 52-67) as substring matchers.
Every regex in the Python list is a literal string (after unescaping), so
`pattern.search(line)` is substring containment; the single alternation
`on(load|click|mouseover|mouseout|submit|focus|blur)` is expanded, in
order, into its seven literal alternatives. -/
def noise_patterns : List String :=
  [("function()"), (".ready("), ("<![CDATA["), ("]]>"),
   ("onload"), ("onclick"), ("onmouseover"), ("onmouseout"), ("onsubmit"),
   ("onfocus"), ("onblur"),
   ("javascript:"), ("style="), ("class="), ("id="),
   (".getElementById"), (".getElementsBy"),
   ("document."), ("window."), ("$(")]

/-- Character-list test: does the second list start with the first? -/
def startsWithL : List Char → List Char → Bool
  | [], _ => true
  | _ :: _, [] => false
  | p :: ps, c :: cs => p == c && startsWithL ps cs

/-- Character-list substring containment. -/
def hasSubL (pat : List Char) : List Char → Bool
  | [] => startsWithL pat []
  | c :: rest => startsWithL pat (c :: rest) || hasSubL pat rest

/-- Embedding of `pattern.search(line)` for the literal noise patterns:
substring containment. -/
def strHasSub (line pat : String) : Bool :=
  hasSubL pat.data line.data

/-- The inner pattern loop of the filter (lines 170-174): scan the pattern
list, stopping (`break`) at the first match. -/
def anyNoise : List String → String → Bool
  | [], _ => false
  | p :: ps, line => if strHasSub line p then true else anyNoise ps line

/-- The filtering loop of `_parse_html_impl` (lines 166-176): keep exactly
the lines on which no noise pattern fires. -/
def filterLoop : List String → List String
  | [] => []
  | line :: rest =>
    if anyNoise noise_patterns line then filterLoop rest
    else line :: filterLoop rest

/-- Body selection (lines 156-158): `find(".//body")`, falling back to the
whole document when absent. -/
def bodyOf (root : Elem) : Elem :=
  (findTag root ("body")).getD root

/-- The combined pre-filter document of `_parse_html_impl` (line 164):
metadata lines, one blank line, then the traversal output started on the
body with a fresh seen set at indentation 0. -/
def preFilterLines (root : Elem) (url : String) : List String :=
  metadataLines root url ++ [("")] ++ (process_element [] (bodyOf root) 0).2

/-- The noise-filtered line sequence of the extracted document. -/
def extractLines (root : Elem) (url : String) : List String :=
  filterLoop (preFilterLines root url)

/-- Embedding of Python `"\n".join(...)`: empty list gives the empty
string, otherwise the lines separated by single newlines. -/
def joinNL : List String → String
  | [] => ""
  | [l] => l
  | l :: rest => l ++ ("\n") ++ joinNL rest

/-- Embedding of the successful branch of `_parse_html_impl` (lines
140-178): join the surviving lines with newlines. -/
def extractDoc (root : Elem) (url : String) : String :=
  joinNL (extractLines root url)

/-- Embedding of `_parse_html_impl` (lines 69-182).  The external
`html5lib.parse` call — and any exception it or the traversal raises, which
the `try`/`except` at lines 71/179 catches — is represented by the
`Except String Elem` argument: `ok` carries the parsed tree, `error` the
exception text, turned into the minimal fallback document of line 182. -/
def parse_html_impl (parsed : Except String Elem) (url : String) : String :=
  match parsed with
  | Except.ok root => extractDoc root url
  | Except.error e => ("URL: ") ++ url ++ ("\n\nError parsing content: ") ++ e

/-- Embedding of `parse_html` (lines 39-49): falsy content (`None` from a
failed fetch, or an empty page) yields the empty string without touching
the parser; otherwise the content is parsed (`parseFn` standing for
`html5lib.parse`) and extracted. -/
def parse_html (parseFn : String → Except String Elem)
    (html_content : Option String) (url : String) : String :=
  match html_content with
  | none => ""
  | some h => if h = ("") then "" else parse_html_impl (parseFn h) url

/-- The fetch stage of `process_urls` (lines 190-201): with
`n = min(len(urls), max_concurrent)` contexts, URL number `i` is fetched on
context `i % n`; the fetch oracle returns `none` when `fetch_page` caught a
navigation/network error for that URL.  Results are listed in URL order, as
`asyncio.gather` returns them. -/
def fetchStage (urls : List String) (max_concurrent : Nat)
    (fetch : Nat → String → Option String) : List (Option String) :=
  (List.range urls.length).map
    (fun i => fetch (i % min urls.length max_concurrent) (urls.getD i ("")))

/-- The parse stage of `process_urls` (lines 204-205):
`zip(html_contents, urls)` mapped through `parse_html`. -/
def parseStage (parseFn : String → Except String Elem)
    (html_contents : List (Option String)) (urls : List String) : List String :=
  (html_contents.zip urls).map (fun cu => parse_html parseFn cu.1 cu.2)

/-- Embedding of the result dataflow of `process_urls` (lines 184-207):
fetch stage then parse stage. -/
def process_urls (urls : List String) (max_concurrent : Nat)
    (fetch : Nat → String → Option String)
    (parseFn : String → Except String Elem) : List String :=
  parseStage parseFn (fetchStage urls max_concurrent fetch) urls

/-- Model of `asyncio.gather`: slots start unfilled; the schedule lists the
task indices in completion order, and each completion writes its task's
value into its own slot.  The assembled list is read out by slot index, so
the caller-supplied order is restored no matter the schedule. -/
def gatherStep {α : Type} (tasks : List α) (acc : List (Option α)) (i : Nat) :
    List (Option α) :=
  match tasks[i]? with
  | some v => acc.set i (some v)
  | none => acc

/-- Run all completions of the schedule in order over initially-unfilled
slots. -/
def gatherSched {α : Type} (tasks : List α) (sched : List Nat) :
    List (Option α) :=
  sched.foldl (gatherStep tasks) (List.replicate tasks.length none)

/-- The result dataflow of `process_urls` with an explicit completion
schedule for the fetch gather. -/
def process_urls_sched (urls : List String) (max_concurrent : Nat)
    (fetch : Nat → String → Option String)
    (parseFn : String → Except String Elem) (sched : List Nat) : List String :=
  parseStage parseFn
    ((gatherSched (fetchStage urls max_concurrent fetch) sched).map Option.join)
    urls

/-- Resource events of one `process_urls` run. -/
inductive PEvent where
  | newContext (k : Nat)
  | fetchCall (i ctx : Nat)
  | closeContext (k : Nat)
  | closeBrowser
deriving Repr, DecidableEq

/-- Resource-lifecycle interpreter for `process_urls` (lines 186-213).
`createOk k` says whether the `k`-th `browser.new_context()` call succeeds.
When all `n = min(len(urls), max_concurrent)` creations succeed, the run
creates contexts `0..n-1`, issues one fetch per URL on context `i % n`, and
the `finally` block closes every context and then the browser; the result
list is returned.  When creation `k` raises, the name `contexts` is never
bound (the list comprehension at line 191 did not finish), so the
`finally` block's `for context in contexts` raises `UnboundLocalError`
before any `context.close()` or `browser.close()` runs: the trace ends
after the successful creations, and the run aborts (`none`). -/
def process_urls_trace (urls : List String) (max_concurrent : Nat)
    (createOk : Nat → Bool) (fetch : Nat → String → Option String)
    (parseFn : String → Except String Elem) :
    List PEvent × Option (List String) :=
  let n := min urls.length max_concurrent
  if (List.range n).all createOk then
    (((List.range n).map PEvent.newContext)
      ++ ((List.range urls.length).map (fun i => PEvent.fetchCall i (i % n)))
      ++ ((List.range n).map PEvent.closeContext)
      ++ [PEvent.closeBrowser],
     some (process_urls urls max_concurrent fetch parseFn))
  else
    (((List.range n).takeWhile createOk).map PEvent.newContext, none)

/-! ### Properties of the stripped-text model -/

theorem dropWhile_head_not {α : Type} (p : α → Bool) :
    ∀ (l : List α) (c : α) (rest : List α), l.dropWhile p = c :: rest → p c = false := by
  intro l
  induction l with
  | nil => intro c rest h; simp [List.dropWhile] at h
  | cons a as ih =>
    intro c rest h
    cases hpa : p a with
    | true => rw [List.dropWhile_cons_of_pos hpa] at h; exact ih c rest h
    | false =>
      rw [List.dropWhile_cons_of_neg (by simp [hpa])] at h
      injection h with h1 _
      rw [← h1]
      exact hpa

theorem dropTrail_cons_eq (c : Char) (rest : List Char) (hc : c.isWhitespace = false) :
    dropTrail (c :: rest) = c :: dropTrail rest := by
  have hd : dropTrail (c :: rest)
      = if dropTrail rest = [] ∧ c.isWhitespace then [] else c :: dropTrail rest := rfl
  rw [hd, if_neg]
  rintro ⟨-, h2⟩
  rw [hc] at h2
  cases h2

theorem dropTrail_idem : ∀ l : List Char, dropTrail (dropTrail l) = dropTrail l := by
  intro l
  induction l with
  | nil => rfl
  | cons c rest ih =>
    have hd : dropTrail (c :: rest)
        = if dropTrail rest = [] ∧ c.isWhitespace then [] else c :: dropTrail rest := rfl
    by_cases h : dropTrail rest = [] ∧ c.isWhitespace
    · rw [hd, if_pos h]; rfl
    · rw [hd, if_neg h]
      have hd2 : dropTrail (c :: dropTrail rest)
          = if dropTrail (dropTrail rest) = [] ∧ c.isWhitespace then []
            else c :: dropTrail (dropTrail rest) := rfl
      rw [hd2, ih, if_neg h]

theorem pyStripL_idem (l : List Char) : pyStripL (pyStripL l) = pyStripL l := by
  unfold pyStripL
  cases hm : l.dropWhile Char.isWhitespace with
  | nil => rfl
  | cons c rest =>
    have hc : c.isWhitespace = false := dropWhile_head_not _ l c rest hm
    rw [dropTrail_cons_eq c rest hc,
      List.dropWhile_cons_of_neg (by simp [hc]),
      dropTrail_cons_eq c (dropTrail rest) hc,
      dropTrail_idem]

theorem dropWhile_append_all {α : Type} (p : α → Bool) :
    ∀ (l1 l2 : List α), (∀ c, c ∈ l1 → p c = true) →
      (l1 ++ l2).dropWhile p = l2.dropWhile p := by
  intro l1
  induction l1 with
  | nil => intro l2 _; rfl
  | cons a as ih =>
    intro l2 h
    rw [List.cons_append, List.dropWhile_cons_of_pos (h a (List.mem_cons_self a as))]
    exact ih l2 (fun c hc => h c (List.mem_cons_of_mem a hc))

theorem indentStr_data_ws (d : Nat) :
    ∀ c, c ∈ (indentStr d).data → c.isWhitespace = true := by
  induction d with
  | zero => intro c hc; cases hc
  | succ d ih =>
    intro c hc
    rw [show (indentStr (d + 1)).data = ("  ").data ++ (indentStr d).data from by
      rw [show indentStr (d + 1) = ("  ") ++ indentStr d from rfl, String.data_append]] at hc
    rcases List.mem_append.mp hc with h | h
    · have hws : ∀ x, x ∈ ("  ").data → x.isWhitespace = true := by decide
      exact hws c h
    · exact ih c h

theorem pyStripL_indent_append (d : Nat) (x : List Char) :
    pyStripL ((indentStr d).data ++ x) = pyStripL x := by
  unfold pyStripL
  rw [dropWhile_append_all _ _ _ (indentStr_data_ws d)]

theorem pyStrip_indent_append (d : Nat) (s : String) :
    pyStrip (indentStr d ++ s) = pyStrip s := by
  unfold pyStrip
  rw [String.data_append, pyStripL_indent_append]

theorem pyStrip_pyStrip (s : String) : pyStrip (pyStrip s) = pyStrip s := by
  unfold pyStrip
  rw [show (String.mk (pyStripL s.data)).data = pyStripL s.data from rfl, pyStripL_idem]

theorem pyStrip_emit (d : Nat) (s : String) :
    pyStrip (indentStr d ++ pyStrip s) = pyStrip s := by
  rw [pyStrip_indent_append, pyStrip_pyStrip]

/-! ### The deduplication invariant of the traversal -/

/-- Invariant tying a traversal step to its starting seen set: the seen set
only grows, every emitted line strips to a text that is newly seen (recorded
in the final seen set, absent from the initial one), and the emitted lines
have pairwise distinct stripped texts. -/
def dedupInv (s0 : List String) (p : List String × List String) : Prop :=
  (∀ t, t ∈ s0 → t ∈ p.1) ∧
  (∀ l, l ∈ p.2 → pyStrip l ∈ p.1 ∧ pyStrip l ∉ s0) ∧
  (p.2.map pyStrip).Nodup

theorem dedupInv_refl (seen : List String) : dedupInv seen (seen, []) := by
  refine ⟨fun t ht => ht, ?_, ?_⟩
  · intro l hl; cases hl
  · simp

theorem dedupInv_comp {s0 : List String} {p q : List String × List String}
    (hp : dedupInv s0 p) (hq : dedupInv p.1 q) :
    dedupInv s0 (q.1, p.2 ++ q.2) := by
  obtain ⟨hp1, hp2, hp3⟩ := hp
  obtain ⟨hq1, hq2, hq3⟩ := hq
  refine ⟨?_, ?_, ?_⟩
  · intro t ht; exact hq1 t (hp1 t ht)
  · intro l hl
    rcases List.mem_append.mp hl with h | h
    · obtain ⟨ha, hb⟩ := hp2 l h
      exact ⟨hq1 _ ha, hb⟩
    · obtain ⟨ha, hb⟩ := hq2 l h
      exact ⟨ha, fun hmem => hb (hp1 _ hmem)⟩
  · rw [List.map_append, List.nodup_append]
    refine ⟨hp3, hq3, ?_⟩
    intro x hx hx2
    rcases List.mem_map.mp hx with ⟨l1, hl1, rfl⟩
    rcases List.mem_map.mp hx2 with ⟨l2, hl2, heq⟩
    obtain ⟨ha1, -⟩ := hp2 l1 hl1
    obtain ⟨-, hb2⟩ := hq2 l2 hl2
    exact hb2 (by rw [heq]; exact ha1)

theorem dedupInv_comp3 {s0 : List String} {p q r : List String × List String}
    (hp : dedupInv s0 p) (hq : dedupInv p.1 q) (hr : dedupInv q.1 r) :
    dedupInv s0 (r.1, p.2 ++ q.2 ++ r.2) :=
  dedupInv_comp (dedupInv_comp hp hq) hr

theorem dedupInv_emit (seen : List String) (d : Nat) (raw : Option String) :
    dedupInv seen (emitText seen (indentStr d) raw) := by
  cases raw with
  | none => exact dedupInv_refl seen
  | some s =>
    have he : emitText seen (indentStr d) (some s)
        = if s ≠ ("") ∧ pyStrip s ≠ ("") then
            if pyStrip s ∈ seen then (seen, [])
            else (pyStrip s :: seen, [indentStr d ++ pyStrip s])
          else (seen, []) := rfl
    rw [he]
    by_cases h1 : s ≠ ("") ∧ pyStrip s ≠ ("")
    · rw [if_pos h1]
      by_cases h2 : pyStrip s ∈ seen
      · rw [if_pos h2]; exact dedupInv_refl seen
      · rw [if_neg h2]
        refine ⟨?_, ?_, ?_⟩
        · intro t ht; exact List.mem_cons_of_mem _ ht
        · intro l hl
          rcases List.mem_singleton.mp hl with rfl
          rw [pyStrip_emit]
          exact ⟨List.mem_cons_self _ _, h2⟩
        · simp
    · rw [if_neg h1]; exact dedupInv_refl seen

theorem sizeOf_children_lt (tg : String) (a : List (String × String))
    (x tl : Option String) (cs : List Elem) :
    sizeOf cs < sizeOf (Elem.mk tg a x tl cs) := by
  simp only [Elem.mk.sizeOf_spec]
  omega

theorem process_inv_aux :
    ∀ n : Nat,
      (∀ (e : Elem) (seen : List String) (d : Nat), sizeOf e ≤ n →
        dedupInv seen (process_element seen e d)) ∧
      (∀ (cs : List Elem) (seen : List String) (d : Nat), sizeOf cs ≤ n →
        dedupInv seen (processChildren seen d cs)) := by
  intro n
  induction n using Nat.strongRecOn with
  | ind n ih =>
    constructor
    · intro e seen d hn
      cases e with
      | mk tg a tx tl cs =>
        have hcs : sizeOf cs < n :=
          lt_of_lt_of_le (sizeOf_children_lt tg a tx tl cs) hn
        have h1 := dedupInv_emit seen d tx
        have h2 := (ih (sizeOf cs) hcs).2 cs (emitText seen (indentStr d) tx).1 d le_rfl
        exact dedupInv_comp h1 h2
    · intro cs seen d hn
      cases cs with
      | nil => exact dedupInv_refl seen
      | cons c rest =>
        have hc : sizeOf c < n := by
          have : sizeOf (c :: rest) = 1 + sizeOf c + sizeOf rest := by
            simp [List.cons.sizeOf_spec]
          omega
        have hrest : sizeOf rest < n := by
          have : sizeOf (c :: rest) = 1 + sizeOf c + sizeOf rest := by
            simp [List.cons.sizeOf_spec]
          omega
        by_cases hskip : should_skip_element c = true
        · have h1 : dedupInv seen ((seen : List String), ([] : List String)) :=
            dedupInv_refl seen
          have h2 := dedupInv_emit seen d c.tail
          have h3 := (ih (sizeOf rest) hrest).2 rest
            (emitText seen (indentStr d) c.tail).1 d le_rfl
          have hcomp := dedupInv_comp3 h1 h2 h3
          simpa only [processChildren, if_pos hskip] using hcomp
        · have h1 := (ih (sizeOf c) hc).1 c seen (d + 1) le_rfl
          have h2 := dedupInv_emit (process_element seen c (d + 1)).1 d c.tail
          have h3 := (ih (sizeOf rest) hrest).2 rest
            (emitText (process_element seen c (d + 1)).1 (indentStr d) c.tail).1 d le_rfl
          have hcomp := dedupInv_comp3 h1 h2 h3
          simpa only [processChildren, if_neg hskip] using hcomp

theorem process_element_dedupInv (seen : List String) (e : Elem) (d : Nat) :
    dedupInv seen (process_element seen e d) :=
  (process_inv_aux (sizeOf e)).1 e seen d le_rfl

/-! ### Shape of the metadata lines -/

theorem titleLines_shape (root : Elem) :
    titleLines root = [] ∨ ∃ s, titleLines root = [("Title: ") ++ s] := by
  rcases hft : findTag root ("title") with - | el
  · left
    unfold titleLines
    rw [hft]
  · by_cases h : truthy el.text = true
    · right
      refine ⟨pyStrip (el.text.getD ("")), ?_⟩
      unfold titleLines
      rw [hft]
      exact if_pos h
    · left
      unfold titleLines
      rw [hft]
      exact if_neg h

theorem descLoop_shape :
    ∀ ms : List Elem, descLoop ms = [] ∨ ∃ s, descLoop ms = [("Description: ") ++ s] := by
  intro ms
  induction ms with
  | nil => left; rfl
  | cons m rest ih =>
    have hd : descLoop (m :: rest)
        = if (pyLower ((attrGet m ("name")).getD ("")) == ("description")
              && truthy (attrGet m ("content"))) = true then
            [("Description: ") ++ pyStrip ((attrGet m ("content")).getD (""))]
          else descLoop rest := rfl
    by_cases h : (pyLower ((attrGet m ("name")).getD ("")) == ("description")
        && truthy (attrGet m ("content"))) = true
    · right
      exact ⟨pyStrip ((attrGet m ("content")).getD ("")), by rw [hd, if_pos h]⟩
    · rw [hd, if_neg h]
      exact ih

theorem append_ne_append_of_head (a b x y : String) (ha : 0 < a.data.length)
    (hb : 0 < b.data.length) (hne : a.data[0]? ≠ b.data[0]?) : a ++ x ≠ b ++ y := by
  intro h
  apply hne
  have hd := congrArg String.data h
  rw [String.data_append, String.data_append] at hd
  have h0 := congrArg (fun l : List Char => l[0]?) hd
  simp only at h0
  rwa [List.getElem?_append_left ha, List.getElem?_append_left hb] at h0

theorem metadataLines_nodup (root : Elem) (url : String) :
    (metadataLines root url).Nodup := by
  have hTD : ∀ s t : String, ("Title: ") ++ s ≠ ("Description: ") ++ t :=
    fun s t => append_ne_append_of_head _ _ s t (by decide) (by decide) (by decide)
  have hTU : ∀ s : String, ("Title: ") ++ s ≠ ("URL: ") ++ url :=
    fun s => append_ne_append_of_head _ _ s url (by decide) (by decide) (by decide)
  have hDU : ∀ s : String, ("Description: ") ++ s ≠ ("URL: ") ++ url :=
    fun s => append_ne_append_of_head _ _ s url (by decide) (by decide) (by decide)
  unfold metadataLines
  rcases titleLines_shape root with ht | ⟨ts, ht⟩ <;>
    rcases descLoop_shape (findallTag root ("meta")) with hd | ⟨ds, hd⟩ <;>
    rw [ht, hd]
  · simp
  · simp [hDU ds]
  · simp [hTU ts]
  · simp [hTD ts ds, hTU ts, hDU ds]

/-! ### Concrete trees used by individual claims -/

/-- The tree `html5lib.parse` produces for the claim C8 input
`<html><head><title>T</title></head><body><p>Hi</p><p>Hi</p></body></html>`:
no attributes, no stray whitespace text, title text `T`, two paragraphs
with text `Hi`. -/
def c8tree : Elem :=
  .mk ("html") [] none none
    [.mk ("head") [] none none [.mk ("title") [] (some ("T")) none []],
     .mk ("body") [] none none
       [.mk ("p") [] (some ("Hi")) none [],
        .mk ("p") [] (some ("Hi")) none []]]

/-- Tree for `<html><head><title>T</title></head><body>Title: T</body></html>`:
the body's direct text coincides with the title metadata line. -/
def c4tree : Elem :=
  .mk ("html") [] none none
    [.mk ("head") [] none none [.mk ("title") [] (some ("T")) none []],
     .mk ("body") [] (some ("Title: T")) none []]

/-- Tree for `<html><body><p>Hello</p></body></html>`. -/
def c10tree : Elem :=
  .mk ("html") [] none none
    [.mk ("body") [] none none [.mk ("p") [] (some ("Hello")) none []]]

/-! ### Claim C4 -/

/-- Claim C4 counterexample: on the tree of
`<html><head><title>T</title></head><body>Title: T</body></html>` with
source URL `u`, the extracted combined line sequence contains the line
`Title: T` twice — once as metadata and once as body text — so it is not
duplicate-free as the claim states.  The traversal seen-set covers only
traversal text, not the metadata lines. -/
theorem C4_counterexample :
    extractLines c4tree ("u") = [("Title: T"), ("URL: u"), (""), ("Title: T")] ∧
    ¬ (extractLines c4tree ("u")).Nodup := by
  exact ⟨rfl, by decide⟩

/-- Claim C4 (amended): within the traversal output the invariant does
hold — the emitted body lines have pairwise distinct stripped texts (so no
two body lines are textually identical, each deduplicated text being
emitted once, at its first occurrence), every emitted line's stripped text
is fresh with respect to the starting seen set, and the metadata lines are
pairwise distinct among themselves; but a body line may coincide with a
metadata line, as the counterexample shows. -/
theorem C4_amended (e root : Elem) (url : String) (seen : List String) (d : Nat) :
    ((process_element seen e d).2.map pyStrip).Nodup ∧
    ((process_element seen e d).2).Nodup ∧
    (∀ l, l ∈ (process_element seen e d).2 → pyStrip l ∉ seen) ∧
    (metadataLines root url).Nodup := by
  obtain ⟨h1, h2, h3⟩ := process_element_dedupInv seen e d
  exact ⟨h3, List.Nodup.of_map pyStrip h3, fun l hl => (h2 l hl).2,
    metadataLines_nodup root url⟩

/-! ### Properties of the noise filter -/

theorem anyNoise_eq_any (pats : List String) (line : String) :
    anyNoise pats line = pats.any (fun p => strHasSub line p) := by
  induction pats with
  | nil => rfl
  | cons p ps ih =>
    have h : anyNoise (p :: ps) line
        = if strHasSub line p then true else anyNoise ps line := rfl
    rw [h, List.any_cons, ih]
    cases hb : strHasSub line p <;> simp [hb]

theorem any_perm_eq {α : Type} (f : α → Bool) {l1 l2 : List α} (h : l1.Perm l2) :
    l1.any f = l2.any f := by
  induction h with
  | nil => rfl
  | cons x _ ih => simp [List.any_cons, ih]
  | swap x y l => simp [List.any_cons, Bool.or_left_comm]
  | trans _ _ ih1 ih2 => exact ih1.trans ih2

theorem startsWithL_of_append (p q : List Char) :
    ∀ l, startsWithL (p ++ q) l = true → startsWithL p l = true := by
  induction p with
  | nil => intro l _; rfl
  | cons a ps ih =>
    intro l h
    cases l with
    | nil => simp [startsWithL] at h
    | cons c cs =>
      rw [List.cons_append] at h
      have hs : startsWithL (a :: (ps ++ q)) (c :: cs)
          = ((a == c) && startsWithL (ps ++ q) cs) := rfl
      rw [hs, Bool.and_eq_true] at h
      have hs2 : startsWithL (a :: ps) (c :: cs) = ((a == c) && startsWithL ps cs) := rfl
      rw [hs2, Bool.and_eq_true]
      exact ⟨h.1, ih cs h.2⟩

theorem hasSubL_of_append (p q : List Char) :
    ∀ l, hasSubL (p ++ q) l = true → hasSubL p l = true := by
  intro l
  induction l with
  | nil =>
    intro h
    exact startsWithL_of_append p q [] h
  | cons c cs ih =>
    intro h
    have hu : hasSubL (p ++ q) (c :: cs)
        = (startsWithL (p ++ q) (c :: cs) || hasSubL (p ++ q) cs) := rfl
    rw [hu, Bool.or_eq_true] at h
    have hu2 : hasSubL p (c :: cs) = (startsWithL p (c :: cs) || hasSubL p cs) := rfl
    rw [hu2, Bool.or_eq_true]
    rcases h with h | h
    · exact Or.inl (startsWithL_of_append p q _ h)
    · exact Or.inr (ih h)

theorem mem_filterLoop (ls : List String) (line : String)
    (h : line ∈ filterLoop ls) : anyNoise noise_patterns line = false := by
  induction ls with
  | nil => cases h
  | cons l rest ih =>
    have hu : filterLoop (l :: rest)
        = if anyNoise noise_patterns l then filterLoop rest
          else l :: filterLoop rest := rfl
    rw [hu] at h
    by_cases hl : anyNoise noise_patterns l = true
    · rw [if_pos hl] at h; exact ih h
    · rw [if_neg hl] at h
      rcases List.mem_cons.mp h with rfl | h2
      · exact Bool.eq_false_iff.mpr hl
      · exact ih h2

theorem filterLoop_eq_filter (ls : List String) :
    filterLoop ls = ls.filter (fun l => !(anyNoise noise_patterns l)) := by
  induction ls with
  | nil => rfl
  | cons l rest ih =>
    have hu : filterLoop (l :: rest)
        = if anyNoise noise_patterns l then filterLoop rest
          else l :: filterLoop rest := rfl
    rw [hu, List.filter_cons]
    cases hl : anyNoise noise_patterns l <;> simp [hl, ih]

/-! ### Claim C5 -/

/-- Claim C5: a line of the pre-filter document is kept in the extracted
output iff no noise pattern matches it (the loop with `break` is the
OR-combination `List.filter` by `any`, and the decision is invariant under
permutations of the pattern list); consequently a line of the output never
contains the substring `onclick=` or `javascript:` — any such line matches
the `on(click|...)` alternation resp. `javascript:` pattern and is
dropped. -/
theorem C5_noise_filtering (root : Elem) (url line : String)
    (pats1 pats2 : List String) (hperm : pats1.Perm pats2)
    (hmem : line ∈ extractLines root url) :
    anyNoise pats1 line = anyNoise pats2 line ∧
    extractLines root url
      = (preFilterLines root url).filter (fun l => !(anyNoise noise_patterns l)) ∧
    strHasSub line ("onclick=") = false ∧
    strHasSub line ("javascript:") = false := by
  have hline : anyNoise noise_patterns line = false :=
    mem_filterLoop (preFilterLines root url) line hmem
  rw [anyNoise_eq_any] at hline
  refine ⟨?_, ?_, ?_, ?_⟩
  · rw [anyNoise_eq_any, anyNoise_eq_any]
    exact any_perm_eq _ hperm
  · exact filterLoop_eq_filter (preFilterLines root url)
  · cases hoc : strHasSub line ("onclick=") with
    | false => rfl
    | true =>
      have h2 : strHasSub line ("onclick") = true := by
        unfold strHasSub at hoc ⊢
        have hd : ("onclick=").data = ("onclick").data ++ ("=").data := by decide
        rw [hd] at hoc
        exact hasSubL_of_append _ _ _ hoc
      have hany : noise_patterns.any (fun p => strHasSub line p) = true :=
        List.any_eq_true.mpr ⟨("onclick"), by decide, h2⟩
      rw [hline] at hany
      cases hany
  · cases hjs : strHasSub line ("javascript:") with
    | false => rfl
    | true =>
      have hany : noise_patterns.any (fun p => strHasSub line p) = true :=
        List.any_eq_true.mpr ⟨("javascript:"), by decide, hjs⟩
      rw [hline] at hany
      cases hany

/-- Witness for claim C5 at a concrete input: the permuted two-pattern
lists agree on the line `  Hi` of the extracted document of `c8tree`, the
filter equation holds there, and the kept line contains neither banned
substring. -/
theorem C5_noise_filtering_witness :
    (([("id="), ("class=")] : List String).Perm ([("class="), ("id=")])) ∧
    (("  Hi") ∈ extractLines c8tree ("u")) ∧
    (anyNoise [("id="), ("class=")] ("  Hi")
        = anyNoise [("class="), ("id=")] ("  Hi") ∧
      extractLines c8tree ("u")
        = (preFilterLines c8tree ("u")).filter (fun l => !(anyNoise noise_patterns l)) ∧
      strHasSub ("  Hi") ("onclick=") = false ∧
      strHasSub ("  Hi") ("javascript:") = false) :=
  ⟨by decide, by decide,
    C5_noise_filtering c8tree ("u") ("  Hi")
      ([("id="), ("class=")]) ([("class="), ("id=")]) (by decide) (by decide)⟩

/-! ### Claim C3 -/

/-- Claim C3: when parsing or traversal raises (the `Except.error` case of
the embedded parser outcome), `_parse_html_impl` catches the exception and
returns exactly the minimal document `URL: <sourceURL>`, blank line,
`Error parsing content: <error>` — a non-empty string whose `URL:` line is
followed by the error line; no exception propagates (the embedding is
total). -/
theorem C3_extraction_failure_fallback (url err : String) :
    parse_html_impl (Except.error err) url
      = ("URL: ") ++ url ++ ("\n\nError parsing content: ") ++ err ∧
    parse_html_impl (Except.error err) url ≠ ("") := by
  have heq : parse_html_impl (Except.error err) url
      = ("URL: ") ++ url ++ ("\n\nError parsing content: ") ++ err := rfl
  refine ⟨heq, ?_⟩
  rw [heq]
  intro h
  have hlen := congrArg String.length h
  simp only [String.length_append] at hlen
  have h1 : ("URL: ").length = 5 := rfl
  have h2 : ("\n\nError parsing content: ").length = 25 := rfl
  have h3 : ("" : String).length = 0 := rfl
  rw [h1, h2, h3] at hlen
  omega

/-! ### Claim C9 -/

/-- Claim C9: `parse_html` returns the empty string for `None` and for the
empty HTML string, for every parser function — so the parser is never
consulted and an empty successfully-fetched page yields an empty result
slot, not a document with a `URL:` line. -/
theorem C9_falsy_content_skips_parse (parseFn : String → Except String Elem)
    (url : String) :
    parse_html parseFn none url = ("") ∧
    parse_html parseFn (some ("")) url = ("") := by
  constructor
  · rfl
  · show (if ("" : String) = ("") then ("")
      else parse_html_impl (parseFn ("")) url) = ("")
    rw [if_pos rfl]

/-! ### Claim C8 -/

theorem filterLoop_cons_neg (line : String) (rest : List String)
    (h : anyNoise noise_patterns line = false) :
    filterLoop (line :: rest) = line :: filterLoop rest := by
  have hu : filterLoop (line :: rest)
      = if anyNoise noise_patterns line then filterLoop rest
        else line :: filterLoop rest := rfl
  rw [hu, if_neg]
  simp [h]

/-- Claim C8 counterexample: on the tree of
`<html><head><title>T</title></head><body><p>Hi</p><p>Hi</p></body></html>`
with source URL `u`, the second `Hi` is indeed deduplicated, but the
surviving line is emitted at traversal depth 1 and therefore carries a
two-space indent: the document's fourth line is `  Hi`, not `Hi`, so the
extraction differs from the four-line document asserted by the claim. -/
theorem C8_counterexample :
    extractLines c8tree ("u") = [("Title: T"), ("URL: u"), (""), ("  Hi")] ∧
    extractDoc c8tree ("u") ≠ joinNL [("Title: T"), ("URL: u"), (""), ("Hi")] := by
  exact ⟨rfl, by decide⟩

/-- Claim C8 (amended): for every source URL on which no noise pattern
fires, extracting the C8 tree yields exactly the four-line document
`Title: T`, `URL: <url>`, blank line, and the single deduplicated line
`  Hi` at its depth-1 indentation of two spaces. -/
theorem C8_amended (url : String)
    (hurl : anyNoise noise_patterns (("URL: ") ++ url) = false) :
    extractDoc c8tree url = ("Title: T\nURL: ") ++ url ++ ("\n\n  Hi") := by
  have hpre : preFilterLines c8tree url
      = ("Title: T") :: (("URL: ") ++ url) :: ("") :: [("  Hi")] := by
    unfold preFilterLines metadataLines
    rw [show titleLines c8tree = [("Title: T")] from rfl,
      show descLoop (findallTag c8tree ("meta")) = ([] : List String) from rfl,
      show (process_element [] (bodyOf c8tree) 0).2 = [("  Hi")] from rfl]
    simp
  show joinNL (filterLoop (preFilterLines c8tree url)) = _
  rw [hpre,
    filterLoop_cons_neg _ _ (by decide),
    filterLoop_cons_neg _ _ hurl,
    filterLoop_cons_neg _ _ (by decide),
    filterLoop_cons_neg _ _ (by decide),
    show filterLoop ([] : List String) = [] from rfl]
  have hj : joinNL (("Title: T") :: (("URL: ") ++ url) :: ("") :: [("  Hi")])
      = ("Title: T") ++ ("\n")
        ++ ((("URL: ") ++ url) ++ ("\n") ++ (("") ++ ("\n") ++ ("  Hi"))) := rfl
  rw [hj]
  have m1 : ("Title: T\nURL: ") = ("Title: T") ++ ("\n") ++ ("URL: ") := rfl
  have m2 : ("\n\n  Hi") = ("\n") ++ ("") ++ ("\n") ++ ("  Hi") := rfl
  rw [m1, m2]
  simp only [String.append_assoc]

/-- Witness for the amended claim C8 at the concrete source URL `u`. -/
theorem C8_amended_witness :
    anyNoise noise_patterns (("URL: ") ++ ("u")) = false ∧
    extractDoc c8tree ("u") = ("Title: T\nURL: ") ++ ("u") ++ ("\n\n  Hi") :=
  ⟨by decide, C8_amended ("u") (by decide)⟩

/-! ### Claim C10 -/

/-- Claim C10: the noise filter runs over metadata lines too — for the
source URL `https://x.com/page?id=5`, whose `URL:` line contains the `id=`
pattern, the line is present in the pre-filter document but dropped from
the extracted output. -/
theorem C10_noise_filter_hits_metadata :
    ((("URL: ") ++ ("https://x.com/page?id=5"))
        ∈ preFilterLines c10tree ("https://x.com/page?id=5")) ∧
    extractLines c10tree ("https://x.com/page?id=5") = [(""), ("  Hello")] ∧
    ((("URL: ") ++ ("https://x.com/page?id=5"))
        ∉ extractLines c10tree ("https://x.com/page?id=5")) := by
  refine ⟨by decide, rfl, by decide⟩

/-! ### Properties of the gather model and the result dataflow -/

theorem gatherStep_length {α : Type} (tasks : List α) (acc : List (Option α))
    (i : Nat) : (gatherStep tasks acc i).length = acc.length := by
  unfold gatherStep
  cases tasks[i]? <;> simp

theorem foldl_gatherStep_length {α : Type} (tasks : List α) :
    ∀ (sched : List Nat) (acc : List (Option α)),
      (sched.foldl (gatherStep tasks) acc).length = acc.length := by
  intro sched
  induction sched with
  | nil => intro acc; rfl
  | cons i rest ih =>
    intro acc
    rw [List.foldl_cons, ih, gatherStep_length]

theorem gatherSched_length {α : Type} (tasks : List α) (sched : List Nat) :
    (gatherSched tasks sched).length = tasks.length := by
  unfold gatherSched
  rw [foldl_gatherStep_length, List.length_replicate]

theorem gatherStep_get_preserve {α : Type} (tasks : List α)
    (acc : List (Option α)) (i j : Nat) (v : α) (hv : tasks[j]? = some v)
    (hacc : acc[j]? = some (some v)) :
    (gatherStep tasks acc i)[j]? = some (some v) := by
  unfold gatherStep
  cases hti : tasks[i]? with
  | none => exact hacc
  | some w =>
    by_cases hij : i = j
    · subst hij
      rw [hti] at hv
      injection hv with hv
      subst hv
      have hlt : i < acc.length := (List.getElem?_eq_some_iff.mp hacc).1
      rw [List.getElem?_set_self hlt]
    · rw [List.getElem?_set_ne hij]
      exact hacc

theorem gatherStep_get_write {α : Type} (tasks : List α) (acc : List (Option α))
    (j : Nat) (v : α) (hv : tasks[j]? = some v) (hlen : acc.length = tasks.length) :
    (gatherStep tasks acc j)[j]? = some (some v) := by
  unfold gatherStep
  rw [hv]
  have hlt : j < acc.length := by
    have := (List.getElem?_eq_some_iff.mp hv).1
    omega
  rw [List.getElem?_set_self hlt]

theorem foldl_gatherStep_get {α : Type} (tasks : List α) :
    ∀ (sched : List Nat) (acc : List (Option α)) (j : Nat) (v : α),
      acc.length = tasks.length → tasks[j]? = some v →
      (j ∈ sched ∨ acc[j]? = some (some v)) →
      (sched.foldl (gatherStep tasks) acc)[j]? = some (some v) := by
  intro sched
  induction sched with
  | nil =>
    intro acc j v _ _ h
    rcases h with h | h
    · cases h
    · exact h
  | cons i rest ih =>
    intro acc j v hlen hv h
    rw [List.foldl_cons]
    apply ih (gatherStep tasks acc i) j v
      (by rw [gatherStep_length]; exact hlen) hv
    rcases h with hmem | hacc
    · rcases List.mem_cons.mp hmem with rfl | hrest
      · right; exact gatherStep_get_write tasks acc j v hv hlen
      · left; exact hrest
    · right; exact gatherStep_get_preserve tasks acc i j v hv hacc

theorem gatherSched_perm {α : Type} (tasks : List α) (sched : List Nat)
    (h : sched.Perm (List.range tasks.length)) :
    gatherSched tasks sched = tasks.map some := by
  apply List.ext_getElem?
  intro j
  by_cases hj : j < tasks.length
  · have hv : tasks[j]? = some tasks[j] := List.getElem?_eq_getElem hj
    have hrhs : (tasks.map some)[j]? = some (some tasks[j]) := by
      rw [List.getElem?_map, hv]; rfl
    rw [hrhs]
    unfold gatherSched
    apply foldl_gatherStep_get tasks sched _ j tasks[j]
      (List.length_replicate _ _) hv
    left
    exact h.mem_iff.mpr (List.mem_range.mpr hj)
  · have h1 : (gatherSched tasks sched)[j]? = none := by
      apply List.getElem?_eq_none
      rw [gatherSched_length]; omega
    have h2 : (tasks.map some)[j]? = none := by
      apply List.getElem?_eq_none
      rw [List.length_map]; omega
    rw [h1, h2]

theorem fetchStage_length (urls : List String) (mc : Nat)
    (fetch : Nat → String → Option String) :
    (fetchStage urls mc fetch).length = urls.length := by
  unfold fetchStage
  rw [List.length_map, List.length_range]

theorem process_urls_length (urls : List String) (mc : Nat)
    (fetch : Nat → String → Option String)
    (parseFn : String → Except String Elem) :
    (process_urls urls mc fetch parseFn).length = urls.length := by
  unfold process_urls parseStage
  rw [List.length_map, List.length_zip, fetchStage_length, Nat.min_self]

theorem process_urls_sched_eq (urls : List String) (mc : Nat)
    (fetch : Nat → String → Option String)
    (parseFn : String → Except String Elem) (sched : List Nat)
    (h : sched.Perm (List.range urls.length)) :
    process_urls_sched urls mc fetch parseFn sched
      = process_urls urls mc fetch parseFn := by
  unfold process_urls_sched process_urls
  rw [gatherSched_perm (fetchStage urls mc fetch) sched
    (by rw [fetchStage_length]; exact h)]
  rw [List.map_map]
  have hcomp : (Option.join ∘ some : Option String → Option String) = id := by
    funext x; rfl
  rw [hcomp, List.map_id]

theorem process_urls_getElem (urls : List String) (mc : Nat)
    (fetch : Nat → String → Option String)
    (parseFn : String → Except String Elem) (i : Nat) (hi : i < urls.length) :
    (process_urls urls mc fetch parseFn)[i]?
      = some (parse_html parseFn
          (fetch (i % min urls.length mc) (urls.getD i ("")))
          (urls.getD i (""))) := by
  unfold process_urls parseStage
  rw [List.getElem?_map, List.zip_eq_zipWith, List.getElem?_zipWith]
  have htask : (fetchStage urls mc fetch)[i]?
      = some (fetch (i % min urls.length mc) (urls.getD i (""))) := by
    unfold fetchStage
    rw [List.getElem?_map, List.getElem?_range hi]
    rfl
  have hurl : urls[i]? = some (urls.getD i ("")) := by
    rw [List.getD_eq_getElem?_getD, List.getElem?_eq_getElem hi]
    rfl
  rw [htask, hurl]
  rfl

/-! ### Claim C1 -/

/-- Claim C1: for every URL list, concurrency bound at least 1, fetch
outcome, parser and completion schedule that is a permutation of the task
indices, the assembled result of `process_urls` is independent of the
completion schedule, has the same length as the URL list, and its entry at
index `i` is the extraction result of the fetch outcome for the URL at
index `i`. -/
theorem C1_order_preserved (urls : List String) (mc : Nat)
    (fetch : Nat → String → Option String)
    (parseFn : String → Except String Elem) (sched : List Nat)
    (hmc : 1 ≤ mc) (hperm : sched.Perm (List.range urls.length)) :
    process_urls_sched urls mc fetch parseFn sched
      = process_urls urls mc fetch parseFn ∧
    (process_urls urls mc fetch parseFn).length = urls.length ∧
    ∀ i, i < urls.length →
      (process_urls urls mc fetch parseFn)[i]?
        = some (parse_html parseFn
            (fetch (i % min urls.length mc) (urls.getD i ("")))
            (urls.getD i (""))) := by
  refine ⟨process_urls_sched_eq urls mc fetch parseFn sched hperm,
    process_urls_length urls mc fetch parseFn, ?_⟩
  intro i hi
  exact process_urls_getElem urls mc fetch parseFn i hi

/-- Witness for claim C1: three URLs, bound 2, a reversed completion
schedule. -/
theorem C1_order_preserved_witness :
    (1 ≤ 2) ∧
    (([2, 0, 1] : List Nat).Perm
      (List.range ([("a"), ("b"), ("c")] : List String).length)) ∧
    (process_urls_sched [("a"), ("b"), ("c")] 2 (fun _ u => some (u ++ ("!")))
        (fun s => Except.error s) [2, 0, 1]
      = process_urls [("a"), ("b"), ("c")] 2 (fun _ u => some (u ++ ("!")))
        (fun s => Except.error s) ∧
    (process_urls [("a"), ("b"), ("c")] 2 (fun _ u => some (u ++ ("!")))
        (fun s => Except.error s)).length
      = ([("a"), ("b"), ("c")] : List String).length ∧
    ∀ i, i < ([("a"), ("b"), ("c")] : List String).length →
      (process_urls [("a"), ("b"), ("c")] 2 (fun _ u => some (u ++ ("!")))
          (fun s => Except.error s))[i]?
        = some (parse_html (fun s => Except.error s)
            ((fun _ u => some (u ++ ("!")))
              (i % min ([("a"), ("b"), ("c")] : List String).length 2)
              (([("a"), ("b"), ("c")] : List String).getD i ("")))
            (([("a"), ("b"), ("c")] : List String).getD i ("")))) :=
  ⟨by decide, by decide,
    C1_order_preserved [("a"), ("b"), ("c")] 2 (fun _ u => some (u ++ ("!")))
      (fun s => Except.error s) [2, 0, 1] (by decide) (by decide)⟩

/-! ### Claim C2 -/

/-- Claim C2: a URL whose fetch failed (`fetch_page` returned `None`) gets
exactly the empty string — not an extraction-error document — in its result
slot; the batch is not aborted (the result still has one slot per URL); and
each other slot depends only on its own fetch outcome: any second fetch
oracle agreeing on slot `j` produces the same result there. -/
theorem C2_fetch_failure_isolated (urls : List String) (mc : Nat)
    (fetch fetch2 : Nat → String → Option String)
    (parseFn : String → Except String Elem) (i : Nat) (hi : i < urls.length)
    (hfail : fetch (i % min urls.length mc) (urls.getD i ("")) = none) :
    (process_urls urls mc fetch parseFn)[i]? = some ("") ∧
    (process_urls urls mc fetch parseFn).length = urls.length ∧
    ∀ j, j < urls.length →
      fetch2 (j % min urls.length mc) (urls.getD j (""))
        = fetch (j % min urls.length mc) (urls.getD j ("")) →
      (process_urls urls mc fetch2 parseFn)[j]?
        = (process_urls urls mc fetch parseFn)[j]? := by
  refine ⟨?_, process_urls_length urls mc fetch parseFn, ?_⟩
  · rw [process_urls_getElem urls mc fetch parseFn i hi, hfail]
    rfl
  · intro j hj hagree
    rw [process_urls_getElem urls mc fetch2 parseFn j hj,
      process_urls_getElem urls mc fetch parseFn j hj, hagree]

/-- Witness for claim C2: two URLs on one context, the first URL's fetch
fails, the second oracle agrees everywhere. -/
theorem C2_fetch_failure_isolated_witness :
    (0 < ([("a"), ("b")] : List String).length) ∧
    ((fun _ _ => (none : Option String))
        (0 % min ([("a"), ("b")] : List String).length 1)
        (([("a"), ("b")] : List String).getD 0 ("")) = none) ∧
    ((process_urls [("a"), ("b")] 1 (fun _ _ => none)
        (fun s => Except.error s))[0]? = some ("") ∧
    (process_urls [("a"), ("b")] 1 (fun _ _ => none)
        (fun s => Except.error s)).length
      = ([("a"), ("b")] : List String).length ∧
    ∀ j, j < ([("a"), ("b")] : List String).length →
      (fun _ _ => (none : Option String))
          (j % min ([("a"), ("b")] : List String).length 1)
          (([("a"), ("b")] : List String).getD j (""))
        = (fun _ _ => (none : Option String))
          (j % min ([("a"), ("b")] : List String).length 1)
          (([("a"), ("b")] : List String).getD j ("")) →
      (process_urls [("a"), ("b")] 1 (fun _ _ => none)
          (fun s => Except.error s))[j]?
        = (process_urls [("a"), ("b")] 1 (fun _ _ => none)
          (fun s => Except.error s))[j]?) :=
  ⟨by decide, rfl,
    C2_fetch_failure_isolated [("a"), ("b")] 1 (fun _ _ => none)
      (fun _ _ => none) (fun s => Except.error s) 0 (by decide) rfl⟩

/-! ### Claims C6 and C7 -/

/-- Test for a context-creation event. -/
def isNewContextEv : PEvent → Bool
  | .newContext _ => true
  | _ => false

/-- Test for a fetch-dispatch event. -/
def isFetchEv : PEvent → Bool
  | .fetchCall _ _ => true
  | _ => false

theorem filter_map_of_true {α β : Type} (f : α → β) (p : β → Bool)
    (h : ∀ a, p (f a) = true) :
    ∀ l : List α, (l.map f).filter p = l.map f := by
  intro l
  induction l with
  | nil => rfl
  | cons a as ih =>
    rw [List.map_cons, List.filter_cons, if_pos (h a), ih]

theorem filter_map_of_false {α β : Type} (f : α → β) (p : β → Bool)
    (h : ∀ a, p (f a) = false) :
    ∀ l : List α, (l.map f).filter p = [] := by
  intro l
  induction l with
  | nil => rfl
  | cons a as ih =>
    rw [List.map_cons, List.filter_cons, if_neg (by simp [h a]), ih]

/-- Claim C6: on a run where every context creation succeeds, with a
non-empty URL list and a bound of at least 1, `process_urls` creates
exactly the contexts `0 .. min(len(urls), maxConcurrent) - 1` — so exactly
`min(len(urls), maxConcurrent)` of them — and dispatches the fetch of URL
`i` on context `i % min(len(urls), maxConcurrent)`. -/
theorem C6_context_pool_round_robin (urls : List String) (mc : Nat)
    (createOk : Nat → Bool) (fetch : Nat → String → Option String)
    (parseFn : String → Except String Elem)
    (hne : urls ≠ []) (hmc : 1 ≤ mc) (hok : ∀ k, createOk k = true) :
    ((process_urls_trace urls mc createOk fetch parseFn).1.filter isNewContextEv
        = (List.range (min urls.length mc)).map PEvent.newContext) ∧
    (((process_urls_trace urls mc createOk fetch parseFn).1.filter
          isNewContextEv).length = min urls.length mc) ∧
    ((process_urls_trace urls mc createOk fetch parseFn).1.filter isFetchEv
        = (List.range urls.length).map
            (fun i => PEvent.fetchCall i (i % min urls.length mc))) := by
  have hall : (List.range (min urls.length mc)).all createOk = true :=
    List.all_eq_true.mpr (fun x _ => hok x)
  have htrace : (process_urls_trace urls mc createOk fetch parseFn).1
      = ((List.range (min urls.length mc)).map PEvent.newContext)
        ++ ((List.range urls.length).map
            (fun i => PEvent.fetchCall i (i % min urls.length mc)))
        ++ ((List.range (min urls.length mc)).map PEvent.closeContext)
        ++ [PEvent.closeBrowser] := by
    unfold process_urls_trace
    rw [if_pos hall]
  rw [htrace]
  simp only [List.filter_append]
  rw [filter_map_of_true PEvent.newContext isNewContextEv (fun a => rfl),
    filter_map_of_false (fun i => PEvent.fetchCall i (i % min urls.length mc))
      isNewContextEv (fun a => rfl),
    filter_map_of_false PEvent.closeContext isNewContextEv (fun a => rfl),
    filter_map_of_false PEvent.newContext isFetchEv (fun a => rfl),
    filter_map_of_true (fun i => PEvent.fetchCall i (i % min urls.length mc))
      isFetchEv (fun a => rfl),
    filter_map_of_false PEvent.closeContext isFetchEv (fun a => rfl)]
  refine ⟨by simp [isNewContextEv], ?_, by simp [isFetchEv]⟩
  simp [isNewContextEv, List.length_map, List.length_range]

/-- Witness for claim C6: three URLs with bound 2 create contexts 0 and 1
and dispatch URLs 0, 1, 2 on contexts 0, 1, 0. -/
theorem C6_context_pool_round_robin_witness :
    (([("a"), ("b"), ("c")] : List String) ≠ []) ∧ (1 ≤ 2) ∧
    (((process_urls_trace [("a"), ("b"), ("c")] 2 (fun _ => true)
          (fun _ _ => none) (fun s => Except.error s)).1.filter isNewContextEv
        = (List.range (min ([("a"), ("b"), ("c")] : List String).length 2)).map
            PEvent.newContext) ∧
    (((process_urls_trace [("a"), ("b"), ("c")] 2 (fun _ => true)
          (fun _ _ => none) (fun s => Except.error s)).1.filter
            isNewContextEv).length
        = min ([("a"), ("b"), ("c")] : List String).length 2) ∧
    ((process_urls_trace [("a"), ("b"), ("c")] 2 (fun _ => true)
          (fun _ _ => none) (fun s => Except.error s)).1.filter isFetchEv
        = (List.range ([("a"), ("b"), ("c")] : List String).length).map
            (fun i => PEvent.fetchCall i
              (i % min ([("a"), ("b"), ("c")] : List String).length 2)))) :=
  ⟨by decide, by decide,
    C6_context_pool_round_robin [("a"), ("b"), ("c")] 2 (fun _ => true)
      (fun _ _ => none) (fun s => Except.error s)
      (by decide) (by decide) (fun k => rfl)⟩

/-- Claim C7 fails on the code: when the second `browser.new_context()`
call raises while processing two URLs with bound 2, the list comprehension
at line 191 aborts before the name `contexts` is bound, so the `finally`
block raises `UnboundLocalError` at `for context in contexts` — context 0,
which was created, is never closed, and `browser.close()` never runs.  The
trace of the run contains the creation of context 0 but no close event and
no browser-close event, and the run aborts instead of returning. -/
theorem C7_teardown_bug :
    (process_urls_trace [("a"), ("b")] 2 (fun k => k == 0) (fun _ _ => none)
        (fun _ => Except.error ("boom"))
      = ([PEvent.newContext 0], none)) ∧
    ((PEvent.newContext 0)
        ∈ (process_urls_trace [("a"), ("b")] 2 (fun k => k == 0)
            (fun _ _ => none) (fun _ => Except.error ("boom"))).1) ∧
    ((PEvent.closeContext 0)
        ∉ (process_urls_trace [("a"), ("b")] 2 (fun k => k == 0)
            (fun _ _ => none) (fun _ => Except.error ("boom"))).1) ∧
    (PEvent.closeBrowser
        ∉ (process_urls_trace [("a"), ("b")] 2 (fun k => k == 0)
            (fun _ _ => none) (fun _ => Except.error ("boom"))).1) := by
  refine ⟨rfl, by decide, by decide, by decide⟩
